import Mathlib

/-!
Verification of the label-fusion engine of
`global_segment_map/label_tsdf_integrator.h` (voxblox-plusplus).

The C++ header is shallowly embedded below.  Machine unsigned integers
(`Label`, `LabelConfidence`, both `unsigned int` — the `Label` typedef lives in
`label_voxel.h`, which is not part of the sources here; the spec calls a label
an opaque unsigned integer and `getFreshLabel` checks the counter against
`std::numeric_limits<unsigned int>::max()`) are modelled as `Nat` with
arithmetic reduced `% 2^32` where overflow can occur.  `std::map` /
`std::unordered_map` fields are modelled as association lists with unique keys
(`alookup` / `aset` mirror `find` / `emplace`-or-update), `std::unordered_set`
as a duplicate-free list, and a `Segment*` pointer as the index of the segment
in the batch's segment store.  A fatal `CHECK` is modelled by returning `none`.
The float overlap-ratio test `count / size > threshold` is modelled exactly
over the rationals by cross-multiplication, with the configured threshold kept
as a fraction `ratioNum / ratioDen`.
-/

namespace LabelTsdf

/-- A label id, `unsigned int` in the source. -/
abbrev Label := Nat

/-- A segment is identified by the index of the `Segment*` in the batch. -/
abbrev SegId := Nat

/-- Modulus of the 32-bit unsigned arithmetic of `Label` / `LabelConfidence`. -/
def uintMod : Nat := 2 ^ 32

/-- Value of `std::numeric_limits<unsigned int>::max()`. -/
def uintMax : Nat := 2 ^ 32 - 1

/-- The `LabelTsdfConfig` struct.  `pairwise_confidence_ratio_threshold` is the
float `0.05f` in the source; it is carried here as the exact fraction
`ratioNum / ratioDen` and the ratio comparison is done by cross-multiplication. -/
structure LabelTsdfConfig where
  enable_pairwise_confidence_merging : Bool := false
  ratioNum : Nat := 1
  ratioDen : Nat := 20
  pairwise_confidence_threshold : Int := 2
  cap_confidence : Bool := false
  confidence_cap_value : Nat := 10
deriving DecidableEq, Repr

/-- Association-list lookup, the model of `std::map::find`. -/
def alookup {α : Type} : List (Nat × α) → Nat → Option α
  | [], _ => none
  | (k, v) :: rest, key => if k = key then some v else alookup rest key

/-- Association-list write, the model of `std::map` `emplace` (key absent) or
assignment through the found iterator (key present). -/
def aset {α : Type} : List (Nat × α) → Nat → α → List (Nat × α)
  | [], key, v => [(key, v)]
  | (k, w) :: rest, key, v =>
    if k = key then (key, v) :: rest else (k, w) :: aset rest key v

/-- The label payload of a voxel (`LabelVoxel`): a label id and the bounded
confidence counter, both unsigned. -/
structure LabelVoxel where
  label : Label := 0
  label_confidence : Nat := 0
deriving DecidableEq, Repr

/-- The body of `updateLabelVoxel` (the voxel-level label voting rule), acting
on the voxel together with the shared `highest_label_` counter.  The hashed
per-voxel mutex only serialises this body, so the sequential model is the body
itself.  Unsigned `+` and `-` are reduced `% 2^32`. -/
def updateLabelVoxel (cfg : LabelTsdfConfig) (label : Label) (confidence : Nat)
    (voxel : LabelVoxel) (highest : Nat) : LabelVoxel × Nat :=
  if voxel.label = label then
    let c := (voxel.label_confidence + confidence) % uintMod
    let c :=
      if cfg.cap_confidence ∧ c > cfg.confidence_cap_value then
        cfg.confidence_cap_value
      else c
    ({ voxel with label_confidence := c }, highest)
  else if voxel.label_confidence = 0 then
    ({ label := label, label_confidence := confidence },
      if highest < label then label else highest)
  else
    ({ voxel with
        label_confidence :=
          (voxel.label_confidence + uintMod - confidence % uintMod) % uintMod },
      highest)

/-- The function `getFreshLabel`: `CHECK_LT(*highest_label_,
std::numeric_limits<unsigned int>::max())` then `return ++(*highest_label_)`.
The fatal `CHECK` is `none`; otherwise the minted label and the advanced
counter (which are equal) are returned. -/
def getFreshLabel (highest : Nat) : Option (Label × Nat) :=
  if highest < uintMax then some (highest + 1, highest + 1) else none

/-- The label-relevant state of a `Segment`: the number of points of
`points_C_` and the `labels_` vector filled by `decideLabelPointClouds`. -/
structure Segment where
  numPoints : Nat
  labels : List Label
deriving DecidableEq, Repr

/-- The batch's segment store; a `Segment*` is an index into it. -/
abbrev Segments := List Segment

/-- The default a dangling segment index denotes; theorems never rely on it. -/
def defaultSegment : Segment := ⟨0, []⟩

/-- Read the segment a `Segment*` points to. -/
def getSeg : Segments → SegId → Segment
  | [], _ => defaultSegment
  | s :: _, 0 => s
  | _ :: rest, i + 1 => getSeg rest i

/-- Write back the segment a `Segment*` points to. -/
def setSeg : Segments → SegId → Segment → Segments
  | [], _, _ => []
  | _ :: rest, 0, s => s :: rest
  | x :: rest, i + 1, s => x :: setSeg rest i s

/-- The overlap table `std::map<Label, std::map<Segment*, size_t>>`. -/
abbrev Candidates := List (Label × List (SegId × Nat))

/-- Push `lab` once per point of segment `i`, i.e. the C++ loop
`for i < points_C_.size(): labels_.push_back(lab)`. -/
def assignLabel (segs : Segments) (i : SegId) (lab : Label) : Segments :=
  let s := getSeg segs i
  setSeg segs i { s with labels := s.labels ++ List.replicate s.numPoints lab }

/-- The flattened iteration of the nested loops of `getNextSegmentLabelPair`:
one entry `(label, segment, count)` per inner map entry, outer order first. -/
def allEntries (cands : Candidates) : List (Label × SegId × Nat) :=
  cands.flatMap (fun e => e.2.map (fun p => (e.1, p.1, p.2)))

/-- One comparison step of the max scan of `getNextSegmentLabelPair`. -/
def bestStep (labelled : List SegId) (acc e : Label × SegId × Nat) :
    Label × SegId × Nat :=
  if e.2.2 > acc.2.2 ∧ e.2.1 ∉ labelled then e else acc

/-- The function `getNextSegmentLabelPair`: scan the whole overlap table for
the not-yet-labelled segment entry with the strictly largest count
(`max_count` starts at `0`); `none` models the `max_count == 0` false return. -/
def getNextSegmentLabelPair (cands : Candidates) (labelled : List SegId) :
    Option (SegId × Label) :=
  let best := (allEntries cands).foldl (bestStep labelled) (0, 0, 0)
  if best.2.2 = 0 then none else some (best.2.1, best.1)

/-- The call `candidates->erase(pair.second)`: drop the entry of that label. -/
def eraseLabel (cands : Candidates) (lab : Label) : Candidates :=
  cands.filter (fun e => e.1 ≠ lab)

/-- The `while (getNextSegmentLabelPair(...))` loop of
`decideLabelPointClouds`.  Each iteration erases the claimed label from the
table, so `cands.length` rounds of fuel always reach the `false` return. -/
def greedyLoop : Nat → Candidates → List SegId → Segments →
    Segments × List SegId × Candidates
  | 0, cands, labelled, segs => (segs, labelled, cands)
  | fuel + 1, cands, labelled, segs =>
    match getNextSegmentLabelPair cands labelled with
    | none => (segs, labelled, cands)
    | some (sid, lab) =>
      greedyLoop fuel (eraseLabel cands lab) (sid :: labelled)
        (assignLabel segs sid lab)

/-- The final loop of `decideLabelPointClouds`: every segment of
`segments_to_integrate` not yet labelled gets a fresh label on all its points.
`none` when `getFreshLabel`'s fatal check fires. -/
def assignFresh : List SegId → Segments → List SegId → Nat →
    Option (Segments × List SegId × Nat)
  | [], segs, labelled, highest => some (segs, labelled, highest)
  | i :: rest, segs, labelled, highest =>
    if i ∈ labelled then assignFresh rest segs labelled highest
    else
      match getFreshLabel highest with
      | none => none
      | some (fresh, highest') =>
        assignFresh rest (assignLabel segs i fresh) (i :: labelled) highest'

/-- The function `decideLabelPointClouds`: the greedy claiming loop followed
by fresh labels for the unclaimed segments, returning the updated segment
store and `highest_label_`. -/
def decideLabelPointClouds (segsToInt : List SegId) (cands : Candidates)
    (segs : Segments) (highest : Nat) : Option (Segments × Nat) :=
  let r := greedyLoop cands.length cands [] segs
  match assignFresh segsToInt r.1 r.2.1 highest with
  | none => none
  | some (segs', _, highest') => some (segs', highest')

/-- Insertion into the `std::unordered_set<Label> merge_candidate_labels`,
modelled as a duplicate-free list. -/
def insertLabel (set : List Label) (l : Label) : List Label :=
  if l ∈ set then set else l :: set

/-- The function `checkForSegmentLabelMergeCandidate`: insert the label when
`label_points_count / segment_points_count > pairwise_confidence_ratio_threshold`
(exact rational comparison by cross-multiplication). -/
def checkForSegmentLabelMergeCandidate (cfg : LabelTsdfConfig) (label : Label)
    (labelPointsCount segmentPointsCount : Nat) (set : List Label) :
    List Label :=
  if labelPointsCount * cfg.ratioDen > cfg.ratioNum * segmentPointsCount then
    insertLabel set label
  else set

/-- The function `increaseLabelCountForSegment`: bump the overlap count of
`(label, segment)` in the shared table; only on the `++segment_it->second`
branch (count already present) is the merge-candidate ratio check run. -/
def increaseLabelCountForSegment (cfg : LabelTsdfConfig) (sid : SegId)
    (label : Label) (segmentPointsCount : Nat) (cands : Candidates)
    (set : List Label) : Candidates × List Label :=
  match alookup cands label with
  | some inner =>
    match alookup inner sid with
    | some c =>
      (aset cands label (aset inner sid (c + 1)),
        if cfg.enable_pairwise_confidence_merging then
          checkForSegmentLabelMergeCandidate cfg label (c + 1)
            segmentPointsCount set
        else set)
    | none => (aset cands label (aset inner sid 1), set)
  | none => (aset cands label [(sid, 1)], set)

/-- The point loop of `computeSegmentLabelCandidates`.  One input label per
point: `0` stands for "no allocated block or voxel.label == 0", which the loop
skips; a nonzero observed label sets `candidate_label_exists` and is counted.
Returns the overlap table, the merge-candidate set and the flag. -/
def scanSegmentPoints (cfg : LabelTsdfConfig) (sid : SegId) (segSize : Nat) :
    List Label → Candidates → List Label → Bool →
    Candidates × List Label × Bool
  | [], cands, set, exists_ => (cands, set, exists_)
  | v :: rest, cands, set, exists_ =>
    if v ≠ 0 then
      let r := increaseLabelCountForSegment cfg sid v segSize cands set
      scanSegmentPoints cfg sid segSize rest r.1 r.2 true
    else scanSegmentPoints cfg sid segSize rest cands set exists_

/-- The pairwise confidence ledger
`std::map<Label, std::map<Label, int>> pairwise_confidence_`. -/
abbrev Ledger := List (Label × List (Label × Int))

/-- Set or bump the ledger count of the already-canonicalised key
`(l1, l2)`: `++confidence->second` when present, `emplace(..., 1)` of the
inner entry or of a fresh inner map otherwise. -/
def bumpAt (ledger : Ledger) (l1 l2 : Label) : Ledger :=
  match alookup ledger l1 with
  | some inner =>
    match alookup inner l2 with
    | some c => aset ledger l1 (aset inner l2 (c + 1))
    | none => aset ledger l1 (aset inner l2 1)
  | none => aset ledger l1 [(l2, 1)]

/-- One inner step of `increasePairwiseConfidenceCount`: for distinct labels,
swap the pair so `label1 < label2` and bump its ledger count. -/
def bumpPair (ledger : Ledger) (a b : Label) : Ledger :=
  if a ≠ b then
    if a > b then bumpAt ledger b a else bumpAt ledger a b
  else ledger

/-- The function `increasePairwiseConfidenceCount`: the double loop
`for i; for j > i` over the merge-candidate vector, bumping every couple. -/
def increasePairwiseConfidenceCount : List Label → Ledger → Ledger
  | [], ledger => ledger
  | x :: rest, ledger =>
    increasePairwiseConfidenceCount rest
      (rest.foldl (fun acc y => bumpPair acc x y) ledger)

/-- The count a ledger holds for the ordered key `(x, y)`, `0` when absent. -/
def ledgerCount (ledger : Ledger) (x y : Label) : Int :=
  match alookup ledger x with
  | some inner =>
    match alookup inner y with
    | some c => c
    | none => 0
  | none => 0

/-- The function `computeSegmentLabelCandidates`: scan the points, feed the
merge-candidate set to `increasePairwiseConfidenceCount` when merging is
enabled, and give a previously unobserved segment a fresh label entry of
weight `points_C_.size()` in the table.  `none` when the mint check fires. -/
def computeSegmentLabelCandidates (cfg : LabelTsdfConfig) (sid : SegId)
    (obs : List Label) (cands : Candidates) (ledger : Ledger)
    (highest : Nat) : Option (Candidates × Ledger × Nat) :=
  let r := scanSegmentPoints cfg sid obs.length obs cands [] false
  let ledger' :=
    if cfg.enable_pairwise_confidence_merging then
      increasePairwiseConfidenceCount r.2.1 ledger
    else ledger
  if r.2.2 then some (r.1, ledger', highest)
  else
    match getFreshLabel highest with
    | none => none
    | some (fresh, highest') =>
      some (aset r.1 fresh [(sid, obs.length)], ledger', highest')

/-- The label layer: the sparse map from block index to the block's voxels
(a block is its list of `LabelVoxel`s; the integer block coordinate is
flattened to one `Nat` key). -/
abbrev LayerT := List (Nat × List LabelVoxel)

/-- The function `swapLabels`: over every allocated block of the label layer,
rewrite every voxel holding `old_label` to `new_label`. -/
def swapLabels (oldLabel newLabel : Label) (layer : LayerT) : LayerT :=
  layer.map fun blk =>
    (blk.1,
      blk.2.map fun v =>
        if v.label = oldLabel then { v with label := newLabel } else v)

/-- The guard of the erase inside `mergeLabels`: true exactly when the sweep,
iterating `pairwise_confidence_`, reaches an inner entry whose count exceeds
`pairwise_confidence_threshold` — at which point the C++ executes
`confidence_map.second.erase(confidence_pair_it->first)`, erasing the very
element its live inner iterator denotes, and then evaluates
`++confidence_pair_it` on that invalidated iterator (undefined behavior). -/
def mergeSweepErasesAtIterator (cfg : LabelTsdfConfig) (ledger : Ledger) :
    Bool :=
  cfg.enable_pairwise_confidence_merging &&
    ledger.any fun e =>
      e.2.any fun p => p.2 > cfg.pairwise_confidence_threshold

/-- Modelled from the spec: the inner sweep of `mergeLabels` with the
remove-and-continue semantics §4.6 intends ("rewriting every voxel holding the
superseded label to the surviving label; remove the ledger entry").  The
literal C++ loop increments an iterator invalidated by its own erase, so this
definition supplies the intended defined behaviour. -/
def mergeInner (cfg : LabelTsdfConfig) (l1 : Label) :
    List (Label × Int) → LayerT → List (Label × Int) × LayerT
  | [], layer => ([], layer)
  | (l2, c) :: rest, layer =>
    if c > cfg.pairwise_confidence_threshold then
      mergeInner cfg l1 rest (swapLabels l1 l2 layer)
    else
      let r := mergeInner cfg l1 rest layer
      ((l2, c) :: r.1, r.2)

/-- Modelled from the spec: the outer sweep of `mergeLabels` over the ledger
(ascending keys, the `std::map` order), with `mergeInner`'s intended
remove-and-continue inner loop.  No-op when pairwise merging is disabled. -/
def mergeLabelsModel (cfg : LabelTsdfConfig) (ledger : Ledger)
    (layer : LayerT) : Ledger × LayerT :=
  if cfg.enable_pairwise_confidence_merging then
    match ledger with
    | [] => ([], layer)
    | (l1, inner) :: rest =>
      let r := mergeInner cfg l1 inner layer
      let rr := mergeLabelsModel cfg rest r.2
      ((l1, r.1) :: rr.1, rr.2)
  else (ledger, layer)

/-- Modelled from the spec: `Layer::insertBlock` ("an operation to install a
finished block into the persistent structure", §6) — install the staged block
under its coordinate; an already installed coordinate keeps its block
(`std::unordered_map` insert does not overwrite). -/
def insertBlock (layer : LayerT) (blk : Nat × List LabelVoxel) : LayerT :=
  match alookup layer blk.1 with
  | some _ => layer
  | none => layer ++ [blk]

/-- The whole mutable state of one `LabelTsdfIntegrator`: the label layer, the
label staging map `temp_label_block_map_`, the inherited TSDF staging map
`temp_block_map_` (only its keys matter here), the ledger, the shared
`highest_label_` counter, and the never-written `labels_count_map_`. -/
structure IntState where
  layer : LayerT
  tempLabelBlocks : List (Nat × List LabelVoxel)
  tempBlocks : List Nat
  ledger : Ledger
  highest : Nat
  labelsCountMap : List (Label × Int)
deriving DecidableEq, Repr

/-- The function `updateLabelLayerWithStoredBlocks`: insert every entry of
`temp_label_block_map_` into `label_layer_`, then — as the source is written —
clear `temp_block_map_`, the inherited TSDF staging map, leaving
`temp_label_block_map_` untouched. -/
def updateLabelLayerWithStoredBlocks (s : IntState) : IntState :=
  { s with
    layer := s.tempLabelBlocks.foldl insertBlock s.layer
    tempBlocks := [] }

/-- Read the list element at position `i`. -/
def getNth {α : Type} : List α → Nat → Option α
  | [], _ => none
  | x :: _, 0 => some x
  | _ :: rest, i + 1 => getNth rest i

/-- Apply `f` to the list element at position `i` (no-op out of range). -/
def updateNth {α : Type} : List α → Nat → (α → α) → List α
  | [], _, _ => []
  | x :: rest, 0, f => f x :: rest
  | x :: rest, i + 1, f => x :: updateNth rest i f

/-- Update one voxel of one block of the layer in place. -/
def updateVoxelAt (layer : LayerT) (blockIdx voxIdx : Nat)
    (f : LabelVoxel → LabelVoxel) : LayerT :=
  match alookup layer blockIdx with
  | some voxels => aset layer blockIdx (updateNth voxels voxIdx f)
  | none => layer

/-- The function `getLabelsList`: the labels of `labels_count_map_` whose
count is greater than `0`. -/
def getLabelsList (s : IntState) : List Label :=
  (s.labelsCountMap.filter fun p => p.2 > 0).map Prod.fst

/-- Run the candidate generator over a batch's segments, threading the shared
overlap table, the ledger and the counter; `none` when a mint check fires. -/
def computeAllSegments (cfg : LabelTsdfConfig) :
    List (SegId × List Label) → Candidates → Ledger → Nat →
    Option (Candidates × Ledger × Nat)
  | [], cands, ledger, highest => some (cands, ledger, highest)
  | (sid, obs) :: rest, cands, ledger, highest =>
    match computeSegmentLabelCandidates cfg sid obs cands ledger highest with
    | none => none
    | some (cands', ledger', highest') =>
      computeAllSegments cfg rest cands' ledger' highest'

/-- The public operations of the integrator that touch its state, used to show
what an arbitrary operation sequence can and cannot modify.  `batch` is one
integration batch: candidate generation over the listed segments (their
per-point observed labels given as in `scanSegmentPoints`) followed by
`decideLabelPointClouds`; the batch's `Segment` objects are caller-owned and
carried inside the operation. -/
inductive Op where
  | updVoxel (blockIdx voxIdx : Nat) (label : Label) (confidence : Nat)
  | swap (oldLabel newLabel : Label)
  | merge
  | foldBack
  | batch (segs : Segments) (segObs : List (SegId × List Label))
      (segsToInt : List SegId)

/-- One operation applied to the integrator state.  A fatal `CHECK`
(`none` from a mint) stops the process; the state is then left as is. -/
def applyOp (cfg : LabelTsdfConfig) (s : IntState) : Op → IntState
  | .updVoxel bi vi lab conf =>
    match alookup s.layer bi with
    | none => s
    | some voxels =>
      match getNth voxels vi with
      | none => s
      | some v =>
        let r := updateLabelVoxel cfg lab conf v s.highest
        { s with
          layer := aset s.layer bi (updateNth voxels vi fun _ => r.1)
          highest := r.2 }
  | .swap oldLabel newLabel => { s with layer := swapLabels oldLabel newLabel s.layer }
  | .merge =>
    let r := mergeLabelsModel cfg s.ledger s.layer
    { s with ledger := r.1, layer := r.2 }
  | .foldBack => updateLabelLayerWithStoredBlocks s
  | .batch segs segObs segsToInt =>
    match computeAllSegments cfg segObs [] s.ledger s.highest with
    | none => s
    | some (cands, ledger', highest') =>
      match decideLabelPointClouds segsToInt cands segs highest' with
      | none => { s with ledger := ledger' }
      | some (_, highest'') => { s with ledger := ledger', highest := highest'' }

/-- A sequence of operations applied in order. -/
def applyOps (cfg : LabelTsdfConfig) (s : IntState) : List Op → IntState
  | [] => s
  | op :: rest => applyOps cfg (applyOp cfg s op) rest

/-- The state a freshly constructed integrator starts from: empty layer, empty
staging maps, empty ledger, empty `labels_count_map_`, and whatever counter
value `highest_label` the caller hands in. -/
def initState (highest : Nat) : IntState :=
  { layer := []
    tempLabelBlocks := []
    tempBlocks := []
    ledger := []
    highest := highest
    labelsCountMap := [] }

/-- The default-constructed `LabelTsdfConfig`. -/
def defaultConfig : LabelTsdfConfig := {}

/-- The default config with `enable_pairwise_confidence_merging` switched on. -/
def mergingConfig : LabelTsdfConfig :=
  { enable_pairwise_confidence_merging := true }

/-- A sequence of `updateLabelVoxel` calls `(label, confidence)` applied to one
voxel, threading the `highest_label_` counter. -/
def runUpdates (cfg : LabelTsdfConfig) (ops : List (Label × Nat))
    (v : LabelVoxel) (highest : Nat) : LabelVoxel × Nat :=
  ops.foldl (fun acc op => updateLabelVoxel cfg op.1 op.2 acc.1 acc.2) (v, highest)

/-- C5: starting from an unobserved voxel `(0, 0)`, writing label `1` once and
then label `2` three times, each with confidence increment `1`, leaves the
voxel at label `2` with confidence `2`: the first `2`-write contests `1` down
to confidence `0`, the second flips the voxel to `(2, 1)`, the third
reinforces to `(2, 2)`. -/
theorem C5_contest_flip :
    runUpdates defaultConfig [(1, 1), (2, 1), (2, 1), (2, 1)] ⟨0, 0⟩ 0 =
      (⟨2, 2⟩, 2) := by
  decide

/-- A state whose label staging map holds one block (at block index `0`, one
voxel with label `4`), with the main label layer not yet holding that block. -/
def c1State : IntState :=
  { layer := []
    tempLabelBlocks := [(0, [⟨4, 1⟩])]
    tempBlocks := [0]
    ledger := []
    highest := 4
    labelsCountMap := [] }

/-- C1: running the fold-back on `c1State` installs the staged block into the
main layer and empties `temp_block_map_` — but `temp_label_block_map_` (the
label staging map the claim says is cleared) still holds its block, so the
staging map and the main structure both hold a block for coordinate `0`. -/
theorem C1_staging_map_not_cleared :
    (updateLabelLayerWithStoredBlocks c1State).tempLabelBlocks =
        [(0, [⟨4, 1⟩])] ∧
      alookup (updateLabelLayerWithStoredBlocks c1State).layer 0 =
        some [⟨4, 1⟩] ∧
      (updateLabelLayerWithStoredBlocks c1State).tempBlocks = [] := by
  decide

/-- C6: with pairwise merging enabled and a ledger holding the pair `(1, 2)`
at count `3 > 2`, the `mergeLabels` sweep reaches an entry whose count exceeds
the threshold, so it erases the element its live inner iterator denotes and
then increments that invalidated iterator — undefined behavior. -/
theorem C6_merge_erase_invalidates_iterator :
    mergeSweepErasesAtIterator mergingConfig [(1, [(2, 3)])] = true := by
  decide

/-- C2 counterexample: a one-point segment whose single point observes label
`7`.  Label `7` is recorded with final overlap count `1` and its overlap ratio
`1 / 1` exceeds the threshold `1 / 20`, yet the merge-candidate set after the
scan is empty: the ratio check only runs on the `++count` branch, never on the
first overlap unit of a label. -/
theorem C2_count_one_never_candidate :
    alookup (scanSegmentPoints mergingConfig 0 1 [7] [] [] false).1 7 =
        some [(0, 1)] ∧
      1 * mergingConfig.ratioDen > mergingConfig.ratioNum * 1 ∧
      7 ∉ (scanSegmentPoints mergingConfig 0 1 [7] [] [] false).2.1 := by
  decide

/-- C7 counterexample: `updateLabelVoxel` with incoming label `5` and
increment `1` on a voxel whose confidence is `0` but whose label already
equals `5`, with the counter at `3 < 5`, leaves the counter at `3`: the
equal-label branch never advances `highest_label_`, against the claim that the
counter is advanced in that case too. -/
theorem C7_equal_label_does_not_advance_counter :
    (updateLabelVoxel defaultConfig 5 1 ⟨5, 0⟩ 3).2 = 3 ∧ (3 : Nat) < 5 := by
  decide

/-- C9: with the counter in the representable range of `unsigned int`,
`getFreshLabel` hits its fatal pre-mint check exactly when the counter equals
the representable maximum; otherwise it advances the counter by one and
returns the new value, which is strictly greater than the old counter (hence
than every previously issued label). -/
theorem C9_fresh_label_mint (h : Nat) (hb : h ≤ uintMax) :
    (getFreshLabel h = none ↔ h = uintMax) ∧
      ∀ (l h' : Nat), getFreshLabel h = some (l, h') →
        l = h + 1 ∧ h' = h + 1 ∧ h < l := by
  by_cases hc : h < uintMax
  · refine ⟨?_, ?_⟩
    · simp only [getFreshLabel, if_pos hc]
      constructor
      · intro hn
        exact absurd hn (by simp)
      · intro he
        omega
    · intro l h' hs
      simp only [getFreshLabel, if_pos hc, Option.some.injEq, Prod.mk.injEq] at hs
      obtain ⟨h1, h2⟩ := hs
      exact ⟨h1.symm, h2.symm, h1 ▸ Nat.lt_succ_self h⟩
  · have he : h = uintMax := by omega
    refine ⟨?_, ?_⟩
    · simp [getFreshLabel, hc, he]
    · intro l h' hs
      simp only [getFreshLabel, if_neg hc] at hs
      exact absurd hs (by simp)

/-- C9 witness: at counter `0` the mint does not abort (`0` is not the
maximum) and returns label `1`, advancing the counter to `1`. -/
theorem C9_fresh_label_mint_witness :
    (getFreshLabel 0 = none ↔ 0 = uintMax) ∧
      ∀ (l h' : Nat), getFreshLabel 0 = some (l, h') →
        l = 0 + 1 ∧ h' = 0 + 1 ∧ 0 < l :=
  C9_fresh_label_mint 0 (by decide)

/-- C3: on the overlap table `{(segA, 1) = 5, (segA, 2) = 3, (segB, 1) = 4}`
(segA is segment `0`, segB segment `1`), the greedy resolver gives label `1`
to every point of segA — the `(segA, 1)` count `5` is the strict maximum — and
then, label `1` having been erased from the table, segB is left unclaimed and
receives the freshly minted label `h + 1`, strictly greater than the prior
counter `h`. -/
theorem C3_greedy_precedence (nA nB h : Nat) (hmax : h < uintMax) :
    decideLabelPointClouds [0, 1] [(1, [(0, 5), (1, 4)]), (2, [(0, 3)])]
        [⟨nA, []⟩, ⟨nB, []⟩] h =
      some ([⟨nA, List.replicate nA 1⟩, ⟨nB, List.replicate nB (h + 1)⟩],
        h + 1) ∧
      h < h + 1 := by
  have hf : getFreshLabel h = some (h + 1, h + 1) := by
    unfold getFreshLabel
    rw [if_pos hmax]
  refine ⟨?_, Nat.lt_succ_self h⟩
  simp only [decideLabelPointClouds, greedyLoop, getNextSegmentLabelPair,
    allEntries, bestStep, eraseLabel, assignLabel, getSeg, setSeg,
    defaultSegment, assignFresh, hf]
  rfl

/-- C3 witness: the scenario at segment point counts `2` and `3` and prior
counter `2`: segA's two points all get label `1`, segB's three points all get
the fresh label `3 > 2`. -/
theorem C3_greedy_precedence_witness :
    decideLabelPointClouds [0, 1] [(1, [(0, 5), (1, 4)]), (2, [(0, 3)])]
        [⟨2, []⟩, ⟨3, []⟩] 2 =
      some ([⟨2, List.replicate 2 1⟩, ⟨3, List.replicate 3 3⟩], 3) ∧
      2 < 3 :=
  C3_greedy_precedence 2 3 2 (by decide)

lemma getSeg_out : ∀ (segs : Segments) (i : SegId), segs.length ≤ i →
    getSeg segs i = defaultSegment := by
  intro segs
  induction segs with
  | nil => intro i _; cases i <;> rfl
  | cons s rest ih =>
    intro i hi
    cases i with
    | zero => simp at hi
    | succ j => exact ih j (by simpa using hi)

lemma setSeg_out : ∀ (segs : Segments) (i : SegId) (s : Segment),
    segs.length ≤ i → setSeg segs i s = segs := by
  intro segs
  induction segs with
  | nil => intro i s _; rfl
  | cons x rest ih =>
    intro i s hi
    cases i with
    | zero => simp at hi
    | succ j => simpa [setSeg] using ih j s (by simpa using hi)

lemma getSeg_setSeg_self : ∀ (segs : Segments) (i : SegId) (s : Segment),
    i < segs.length → getSeg (setSeg segs i s) i = s := by
  intro segs
  induction segs with
  | nil => intro i s hi; simp at hi
  | cons x rest ih =>
    intro i s hi
    cases i with
    | zero => rfl
    | succ j => exact ih j s (by simpa using hi)

lemma getSeg_setSeg_ne : ∀ (segs : Segments) (i j : SegId) (s : Segment),
    j ≠ i → getSeg (setSeg segs i s) j = getSeg segs j := by
  intro segs
  induction segs with
  | nil => intro i j s _; rfl
  | cons x rest ih =>
    intro i j s hne
    cases i with
    | zero =>
      cases j with
      | zero => exact absurd rfl hne
      | succ m => rfl
    | succ k =>
      cases j with
      | zero => rfl
      | succ m => exact ih k m s (fun he => hne (by rw [he]))

lemma getSeg_mem : ∀ (segs : Segments) (i : SegId), i < segs.length →
    getSeg segs i ∈ segs := by
  intro segs
  induction segs with
  | nil => intro i hi; simp at hi
  | cons x rest ih =>
    intro i hi
    cases i with
    | zero => exact List.mem_cons_self x rest
    | succ j => exact List.mem_cons_of_mem x (ih j (by simpa using hi))

/-- The invariant `decideLabelPointClouds` maintains: a labelled segment
carries one uniform label on all its points, an unlabelled one still has its
(initially empty) `labels_`. -/
def UniformOrEmpty (segs : Segments) (labelled : List SegId) : Prop :=
  ∀ i : SegId,
    (i ∈ labelled →
      ∃ l, (getSeg segs i).labels =
        List.replicate (getSeg segs i).numPoints l) ∧
    (i ∉ labelled → (getSeg segs i).labels = [])

lemma assignLabel_inv {segs : Segments} {labelled : List SegId} {i : SegId}
    (lab : Label) (hinv : UniformOrEmpty segs labelled) (hni : i ∉ labelled) :
    UniformOrEmpty (assignLabel segs i lab) (i :: labelled) := by
  intro j
  constructor
  · intro hj
    by_cases hji : j = i
    · subst hji
      by_cases hlen : j < segs.length
      · have hget :
            getSeg (assignLabel segs j lab) j =
              { getSeg segs j with
                labels :=
                  (getSeg segs j).labels ++
                    List.replicate (getSeg segs j).numPoints lab } := by
          unfold assignLabel
          exact getSeg_setSeg_self segs j _ hlen
        rw [hget]
        have hemp : (getSeg segs j).labels = [] := (hinv j).2 hni
        exact ⟨lab, by simp [hemp]⟩
      · have hout : assignLabel segs j lab = segs := by
          unfold assignLabel
          exact setSeg_out segs j _ (Nat.le_of_not_lt hlen)
        rw [hout, getSeg_out segs j (Nat.le_of_not_lt hlen)]
        exact ⟨lab, rfl⟩
    · have hj' : j ∈ labelled := by
        cases hj with
        | head => exact absurd rfl hji
        | tail _ hm => exact hm
      have hget : getSeg (assignLabel segs i lab) j = getSeg segs j := by
        unfold assignLabel
        exact getSeg_setSeg_ne segs i j _ hji
      rw [hget]
      exact (hinv j).1 hj'
  · intro hj
    have hji : j ≠ i := fun he => hj (he ▸ List.mem_cons_self i labelled)
    have hj' : j ∉ labelled := fun hm => hj (List.mem_cons_of_mem i hm)
    have hget : getSeg (assignLabel segs i lab) j = getSeg segs j := by
      unfold assignLabel
      exact getSeg_setSeg_ne segs i j _ hji
    rw [hget]
    exact (hinv j).2 hj'

lemma bestScan_mem (labelled : List SegId) :
    ∀ (entries : List (Label × SegId × Nat)) (acc : Label × SegId × Nat),
      entries.foldl (bestStep labelled) acc = acc ∨
        (entries.foldl (bestStep labelled) acc ∈ entries ∧
          (entries.foldl (bestStep labelled) acc).2.1 ∉ labelled) := by
  intro entries
  induction entries with
  | nil => intro acc; exact Or.inl rfl
  | cons e rest ih =>
    intro acc
    have hstep : List.foldl (bestStep labelled) acc (e :: rest) =
        List.foldl (bestStep labelled) (bestStep labelled acc e) rest := rfl
    rcases ih (bestStep labelled acc e) with h | h
    · rw [hstep, h]
      unfold bestStep
      split
      · rename_i hcond
        exact Or.inr ⟨List.mem_cons_self e rest, hcond.2⟩
      · exact Or.inl rfl
    · rw [hstep]
      exact Or.inr ⟨List.mem_cons_of_mem e h.1, h.2⟩

lemma getNext_notLabelled {cands : Candidates} {labelled : List SegId}
    {sid : SegId} {lab : Label}
    (hn : getNextSegmentLabelPair cands labelled = some (sid, lab)) :
    sid ∉ labelled ∧
      (allEntries cands).foldl (bestStep labelled) (0, 0, 0) ∈
        allEntries cands := by
  unfold getNextSegmentLabelPair at hn
  set best := (allEntries cands).foldl (bestStep labelled) (0, 0, 0) with hbest
  by_cases hz : best.2.2 = 0
  · rw [if_pos hz] at hn
    exact absurd hn (by simp)
  · rw [if_neg hz] at hn
    rcases bestScan_mem labelled (allEntries cands) (0, 0, 0) with h | h
    · exact absurd (by rw [← hbest] at h; rw [h]) hz
    · rw [← hbest] at h
      have hsid : best.2.1 = sid := by
        have := hn
        simp only [Option.some.injEq, Prod.mk.injEq] at this
        exact this.1
      exact ⟨hsid ▸ h.2, h.1⟩

lemma greedyLoop_inv :
    ∀ (fuel : Nat) (cands : Candidates) (labelled : List SegId)
      (segs : Segments), UniformOrEmpty segs labelled →
      UniformOrEmpty (greedyLoop fuel cands labelled segs).1
        (greedyLoop fuel cands labelled segs).2.1 := by
  intro fuel
  induction fuel with
  | zero => intro cands labelled segs hinv; exact hinv
  | succ n ih =>
    intro cands labelled segs hinv
    unfold greedyLoop
    cases hn : getNextSegmentLabelPair cands labelled with
    | none => exact hinv
    | some p =>
      obtain ⟨sid, lab⟩ := p
      exact ih (eraseLabel cands lab) (sid :: labelled)
        (assignLabel segs sid lab)
        (assignLabel_inv lab hinv (getNext_notLabelled hn).1)

lemma assignFresh_inv :
    ∀ (l : List SegId) (segs : Segments) (labelled : List SegId)
      (highest : Nat) (segs' : Segments) (labelled' : List SegId)
      (highest' : Nat), UniformOrEmpty segs labelled →
      assignFresh l segs labelled highest =
        some (segs', labelled', highest') →
      UniformOrEmpty segs' labelled' ∧ labelled ⊆ labelled' ∧
        ∀ i ∈ l, i ∈ labelled' := by
  intro l
  induction l with
  | nil =>
    intro segs labelled highest segs' labelled' highest' hinv heq
    simp only [assignFresh, Option.some.injEq, Prod.mk.injEq] at heq
    obtain ⟨h1, h2, _⟩ := heq
    subst h1; subst h2
    exact ⟨hinv, fun _ hm => hm, by intro i hi; simp at hi⟩
  | cons i rest ih =>
    intro segs labelled highest segs' labelled' highest' hinv heq
    unfold assignFresh at heq
    by_cases hmem : i ∈ labelled
    · rw [if_pos hmem] at heq
      obtain ⟨hinv', hsub, hall⟩ :=
        ih segs labelled highest segs' labelled' highest' hinv heq
      refine ⟨hinv', hsub, ?_⟩
      intro j hj
      cases hj with
      | head => exact hsub hmem
      | tail _ hm => exact hall j hm
    · rw [if_neg hmem] at heq
      cases hf : getFreshLabel highest with
      | none => rw [hf] at heq; exact absurd heq (by simp)
      | some p =>
        obtain ⟨fresh, h2⟩ := p
        rw [hf] at heq
        obtain ⟨hinv', hsub, hall⟩ :=
          ih (assignLabel segs i fresh) (i :: labelled) h2 segs' labelled'
            highest' (assignLabel_inv fresh hinv hmem) heq
        have hsub' : labelled ⊆ labelled' :=
          fun a ha => hsub (List.mem_cons_of_mem i ha)
        refine ⟨hinv', hsub', ?_⟩
        intro j hj
        cases hj with
        | head => exact hsub (List.mem_cons_self i labelled)
        | tail _ hm => exact hall j hm

/-- C4: if every segment's `labels_` is empty on entry, then after
`decideLabelPointClouds` returns, every segment named in
`segments_to_integrate` carries exactly one label value uniformly on all of
its points (`labels_` is `numPoints` copies of a single label): segments the
greedy loop claimed got their claimed label, the rest got a fresh one. -/
theorem C4_every_segment_uniformly_labelled (segsToInt : List SegId)
    (cands : Candidates) (segs : Segments) (highest : Nat)
    (segs' : Segments) (highest' : Nat)
    (hempty : ∀ s ∈ segs, s.labels = [])
    (hrun : decideLabelPointClouds segsToInt cands segs highest =
      some (segs', highest')) :
    ∀ i ∈ segsToInt, ∃ l, (getSeg segs' i).labels =
      List.replicate (getSeg segs' i).numPoints l := by
  have hinv0 : UniformOrEmpty segs [] := by
    intro i
    refine ⟨fun hm => absurd hm (by simp), fun _ => ?_⟩
    by_cases hlen : i < segs.length
    · exact hempty _ (getSeg_mem segs i hlen)
    · rw [getSeg_out segs i (Nat.le_of_not_lt hlen)]; rfl
  have hinv1 := greedyLoop_inv cands.length cands [] segs hinv0
  unfold decideLabelPointClouds at hrun
  simp only [] at hrun
  cases ha : assignFresh segsToInt (greedyLoop cands.length cands [] segs).1
      (greedyLoop cands.length cands [] segs).2.1 highest with
  | none => rw [ha] at hrun; exact absurd hrun (by simp)
  | some out =>
    obtain ⟨segs2, labelled2, highest2⟩ := out
    rw [ha] at hrun
    simp only [Option.some.injEq, Prod.mk.injEq] at hrun
    obtain ⟨hs, _⟩ := hrun
    subst hs
    obtain ⟨hinv2, _, hall⟩ := assignFresh_inv segsToInt _ _ highest segs2
      labelled2 highest2 hinv1 ha
    intro i hi
    exact (hinv2 i).1 (hall i hi)

/-- C4 witness: one one-point segment, an empty overlap table — the segment is
unclaimed by the loop, receives the fresh label `1` uniformly. -/
theorem C4_every_segment_uniformly_labelled_witness :
    ∃ l, (getSeg [⟨1, [1]⟩] 0).labels =
      List.replicate (getSeg [⟨1, [1]⟩] 0).numPoints l :=
  C4_every_segment_uniformly_labelled [0] [] [⟨1, []⟩] 0 [⟨1, [1]⟩] 1
    (by decide) (by decide) 0 (by simp)

/-- C7 (amended): on a voxel that is unobserved or has confidence `0`, the
voxel afterwards holds label `L`, with confidence `c` (in the equal-label
branch subject to the confidence cap when capping is enabled); the counter is
advanced to `L` exactly when the voxel's current label differs from `L` and
`L` exceeds it, and is unchanged when the current label already equals `L`;
and a voxel label that was `≤` the counter stays `≤` the counter. -/
theorem C7_confidence_zero_adoption (cfg : LabelTsdfConfig) (L c : Nat)
    (v : LabelVoxel) (h : Nat) (hconf : v.label_confidence = 0)
    (hc : c < uintMod) :
    (updateLabelVoxel cfg L c v h).1.label = L ∧
      (v.label = L →
        (updateLabelVoxel cfg L c v h).2 = h ∧
          (updateLabelVoxel cfg L c v h).1.label_confidence =
            (if cfg.cap_confidence ∧ c > cfg.confidence_cap_value then
              cfg.confidence_cap_value
            else c)) ∧
      (v.label ≠ L →
        (updateLabelVoxel cfg L c v h).2 = (if h < L then L else h) ∧
          (updateLabelVoxel cfg L c v h).1.label_confidence = c) ∧
      (v.label ≤ h →
        (updateLabelVoxel cfg L c v h).1.label ≤
          (updateLabelVoxel cfg L c v h).2) := by
  by_cases he : v.label = L
  · have hred : updateLabelVoxel cfg L c v h =
        ({ v with
            label_confidence :=
              if cfg.cap_confidence ∧ c > cfg.confidence_cap_value then
                cfg.confidence_cap_value
              else c }, h) := by
      unfold updateLabelVoxel
      rw [if_pos he, hconf]
      simp only [Nat.zero_add, Nat.mod_eq_of_lt hc]
    rw [hred]
    refine ⟨he, fun _ => ⟨rfl, rfl⟩, fun hne => absurd he hne, fun hle => hle⟩
  · have hred : updateLabelVoxel cfg L c v h =
        (⟨L, c⟩, if h < L then L else h) := by
      unfold updateLabelVoxel
      rw [if_neg he, if_pos hconf]
    rw [hred]
    refine ⟨rfl, fun heq => absurd heq he, fun _ => ⟨rfl, rfl⟩, fun _ => ?_⟩
    by_cases hl : h < L
    · rw [if_pos hl]
    · rw [if_neg hl]
      exact Nat.le_of_not_lt hl

/-- C7 witness: a fresh voxel `(0, 0)` written with label `2`, increment `1`,
counter `0`: the voxel becomes `(2, 1)` and the counter advances to `2`. -/
theorem C7_confidence_zero_adoption_witness :
    (updateLabelVoxel defaultConfig 2 1 ⟨0, 0⟩ 0).1.label = 2 ∧
      ((0 : Nat) = 2 →
        (updateLabelVoxel defaultConfig 2 1 ⟨0, 0⟩ 0).2 = 0 ∧
          (updateLabelVoxel defaultConfig 2 1 ⟨0, 0⟩ 0).1.label_confidence =
            (if defaultConfig.cap_confidence ∧
                1 > defaultConfig.confidence_cap_value then
              defaultConfig.confidence_cap_value
            else 1)) ∧
      ((0 : Nat) ≠ 2 →
        (updateLabelVoxel defaultConfig 2 1 ⟨0, 0⟩ 0).2 =
            (if 0 < 2 then 2 else 0) ∧
          (updateLabelVoxel defaultConfig 2 1 ⟨0, 0⟩ 0).1.label_confidence =
            1) ∧
      ((0 : Nat) ≤ 0 →
        (updateLabelVoxel defaultConfig 2 1 ⟨0, 0⟩ 0).1.label ≤
          (updateLabelVoxel defaultConfig 2 1 ⟨0, 0⟩ 0).2) :=
  C7_confidence_zero_adoption defaultConfig 2 1 ⟨0, 0⟩ 0 rfl (by decide)

lemma alookup_aset_self {α : Type} :
    ∀ (l : List (Nat × α)) (k : Nat) (v : α), alookup (aset l k v) k = some v := by
  intro l
  induction l with
  | nil => intro k v; simp [aset, alookup]
  | cons p rest ih =>
    intro k v
    by_cases hk : p.1 = k
    · simp [aset, hk, alookup]
    · obtain ⟨k0, v0⟩ := p
      simp only at hk
      simp [aset, hk, alookup, ih]

lemma alookup_aset_ne {α : Type} :
    ∀ (l : List (Nat × α)) (k k' : Nat) (v : α), k' ≠ k →
      alookup (aset l k v) k' = alookup l k' := by
  intro l
  induction l with
  | nil =>
    intro k k' v hne
    have hkk : ¬k = k' := fun h => hne h.symm
    simp [aset, alookup, hkk]
  | cons p rest ih =>
    intro k k' v hne
    obtain ⟨k0, v0⟩ := p
    by_cases hk : k0 = k
    · subst hk
      have hkk : ¬k0 = k' := fun h => hne h.symm
      simp [aset, alookup, hkk]
    · simp only [aset, if_neg hk]
      by_cases hk' : k0 = k'
      · simp [alookup, hk']
      · simp [alookup, hk', ih k k' v hne]

lemma insertLabel_mem_self (set : List Label) (l : Label) :
    l ∈ insertLabel set l := by
  unfold insertLabel
  split
  · assumption
  · exact List.mem_cons_self l set

lemma insertLabel_subset (set : List Label) (l : Label) :
    set ⊆ insertLabel set l := by
  unfold insertLabel
  split
  · exact fun a ha => ha
  · exact fun a ha => List.mem_cons_of_mem l ha

/-- The invariant behind the (amended) C2: any label whose overlap count for
segment `sid` has reached at least `2` and whose ratio clears the threshold is
already in the merge-candidate set. -/
def RatioCandInv (cfg : LabelTsdfConfig) (sid : SegId) (segSize : Nat)
    (cands : Candidates) (set : List Label) : Prop :=
  ∀ (lab : Nat) (inner : List (SegId × Nat)) (c : Nat),
    alookup cands lab = some inner → alookup inner sid = some c →
    2 ≤ c → c * cfg.ratioDen > cfg.ratioNum * segSize → lab ∈ set

lemma increaseLabelCount_inv {cfg : LabelTsdfConfig} {sid : SegId}
    {segSize : Nat} {cands : Candidates} {set : List Label} (label : Label)
    (hen : cfg.enable_pairwise_confidence_merging = true)
    (cands' : Candidates) (set' : List Label)
    (heq : increaseLabelCountForSegment cfg sid label segSize cands set =
      (cands', set'))
    (hinv : RatioCandInv cfg sid segSize cands set) :
    RatioCandInv cfg sid segSize cands' set' := by
  cases h0 : alookup cands label with
  | none =>
    unfold increaseLabelCountForSegment at heq
    rw [h0] at heq
    cases heq
    intro lab inner c h1 h2 hc2 hr
    by_cases hl : lab = label
    · subst hl
      rw [alookup_aset_self] at h1
      obtain rfl : [(sid, 1)] = inner := Option.some.inj h1
      have hcc : (1 : Nat) = c := by
        have h2' : (if sid = sid then some 1 else
            alookup ([] : List (SegId × Nat)) sid) = some c := h2
        rw [if_pos rfl] at h2'
        exact Option.some.inj h2'
      omega
    · rw [alookup_aset_ne cands label lab _ hl] at h1
      exact hinv lab inner c h1 h2 hc2 hr
  | some inner0 =>
    cases h0' : alookup inner0 sid with
    | none =>
      unfold increaseLabelCountForSegment at heq
      rw [h0] at heq
      simp only [] at heq
      rw [h0'] at heq
      cases heq
      intro lab inner c h1 h2 hc2 hr
      by_cases hl : lab = label
      · subst hl
        rw [alookup_aset_self] at h1
        obtain rfl : aset inner0 sid 1 = inner := Option.some.inj h1
        rw [alookup_aset_self] at h2
        have hcc : (1 : Nat) = c := Option.some.inj h2
        omega
      · rw [alookup_aset_ne cands label lab _ hl] at h1
        exact hinv lab inner c h1 h2 hc2 hr
    | some c0 =>
      unfold increaseLabelCountForSegment at heq
      rw [h0] at heq
      simp only [] at heq
      rw [h0', hen] at heq
      simp only [if_pos] at heq
      cases heq
      intro lab inner c h1 h2 hc2 hr
      by_cases hl : lab = label
      · subst hl
        rw [alookup_aset_self] at h1
        obtain rfl : aset inner0 sid (c0 + 1) = inner := Option.some.inj h1
        rw [alookup_aset_self] at h2
        obtain rfl : c0 + 1 = c := Option.some.inj h2
        unfold checkForSegmentLabelMergeCandidate
        rw [if_pos hr]
        exact insertLabel_mem_self set lab
      · rw [alookup_aset_ne cands label lab _ hl] at h1
        have hmem := hinv lab inner c h1 h2 hc2 hr
        unfold checkForSegmentLabelMergeCandidate
        split
        · exact insertLabel_subset set label hmem
        · exact hmem

lemma scanSegmentPoints_inv {cfg : LabelTsdfConfig} {sid : SegId}
    {segSize : Nat} (hen : cfg.enable_pairwise_confidence_merging = true) :
    ∀ (obs : List Label) (cands : Candidates) (set : List Label) (ex : Bool),
      RatioCandInv cfg sid segSize cands set →
      RatioCandInv cfg sid segSize
        (scanSegmentPoints cfg sid segSize obs cands set ex).1
        (scanSegmentPoints cfg sid segSize obs cands set ex).2.1 := by
  intro obs
  induction obs with
  | nil => intro cands set ex hinv; exact hinv
  | cons v rest ih =>
    intro cands set ex hinv
    unfold scanSegmentPoints
    by_cases hv : v ≠ 0
    · rw [if_pos hv]
      exact ih _ _ true (increaseLabelCount_inv v hen _ _ rfl hinv)
    · rw [if_neg hv]
      exact ih cands set ex hinv

/-- C2 (amended): with pairwise merging enabled and no pre-existing overlap
count for this segment in the shared table, every label whose final overlap
count for the segment is at least `2` and whose overlap ratio exceeds the
configured threshold is in the merge-candidate set after the scan; a label
whose count is exactly `1` is never added (the ratio check runs only on the
increment branch, never on a label's first overlap unit). -/
theorem C2_ratio_candidates_after_scan (cfg : LabelTsdfConfig) (sid : SegId)
    (segSize : Nat) (obs : List Label) (cands : Candidates)
    (hen : cfg.enable_pairwise_confidence_merging = true)
    (hfresh : ∀ (lab : Nat) (inner : List (SegId × Nat)),
      alookup cands lab = some inner → alookup inner sid = none)
    (lab : Nat) (inner : List (SegId × Nat)) (c : Nat)
    (h1 : alookup (scanSegmentPoints cfg sid segSize obs cands [] false).1
      lab = some inner)
    (h2 : alookup inner sid = some c) (hc2 : 2 ≤ c)
    (hr : c * cfg.ratioDen > cfg.ratioNum * segSize) :
    lab ∈ (scanSegmentPoints cfg sid segSize obs cands [] false).2.1 := by
  have hinv0 : RatioCandInv cfg sid segSize cands [] := by
    intro lab' inner' c' h1' h2' _ _
    rw [hfresh lab' inner' h1'] at h2'
    exact absurd h2' (by simp)
  exact scanSegmentPoints_inv hen obs cands [] false hinv0 lab inner c h1 h2
    hc2 hr

/-- C2 witness: a two-point segment both of whose points observe label `7`:
the final count `2` with ratio `2/2 > 1/20` puts `7` in the candidate set. -/
theorem C2_ratio_candidates_after_scan_witness :
    7 ∈ (scanSegmentPoints mergingConfig 0 2 [7, 7] [] [] false).2.1 :=
  C2_ratio_candidates_after_scan mergingConfig 0 2 [7, 7] [] rfl
    (by intro lab inner h; exact absurd h (by simp [alookup]))
    7 [(0, 2)] 2 (by decide) (by decide) (by decide) (by decide)

/-- Number of occurrences of `a` in a list. -/
def countOcc (a : Nat) : List Nat → Nat
  | [] => 0
  | x :: rest => (if x = a then 1 else 0) + countOcc a rest

/-- Number of inner-loop iterations `(x, y)` of the pairwise bump, `y` drawn
from the tail, whose canonicalised pair is `(k1, k2)`. -/
def countCanonFrom (k1 k2 x : Nat) : List Nat → Nat
  | [] => 0
  | y :: rest =>
    (if x ≠ y ∧ (if x > y then ((y, x) : Nat × Nat) else (x, y)) = (k1, k2)
      then 1 else 0) + countCanonFrom k1 k2 x rest

/-- Number of ordered iterations `(i, j)` with `i < j` of the double loop of
`increasePairwiseConfidenceCount` whose canonicalised pair is `(k1, k2)`. -/
def countCanon (k1 k2 : Nat) : List Nat → Nat
  | [] => 0
  | x :: rest => countCanonFrom k1 k2 x rest + countCanon k1 k2 rest

/-- The count an inner ledger map holds for `y`, `0` when absent. -/
def innerCount (inner : List (Label × Int)) (y : Label) : Int :=
  match alookup inner y with
  | some c => c
  | none => 0

lemma innerCount_aset_self (inner : List (Label × Int)) (y : Label) (v : Int) :
    innerCount (aset inner y v) y = v := by
  unfold innerCount
  rw [alookup_aset_self]

lemma innerCount_aset_ne (inner : List (Label × Int)) (y y' : Label) (v : Int)
    (h : y' ≠ y) : innerCount (aset inner y v) y' = innerCount inner y' := by
  unfold innerCount
  rw [alookup_aset_ne inner y y' v h]

lemma ledgerCount_aset_self (L : Ledger) (x : Label)
    (inner : List (Label × Int)) (y : Label) :
    ledgerCount (aset L x inner) x y = innerCount inner y := by
  unfold ledgerCount innerCount
  rw [alookup_aset_self]

lemma ledgerCount_aset_ne (L : Ledger) (x x' : Label)
    (inner : List (Label × Int)) (y : Label) (h : x' ≠ x) :
    ledgerCount (aset L x inner) x' y = ledgerCount L x' y := by
  unfold ledgerCount
  rw [alookup_aset_ne L x x' inner h]

lemma ledgerCount_of_none (L : Ledger) (x y : Label)
    (h : alookup L x = none) : ledgerCount L x y = 0 := by
  unfold ledgerCount
  rw [h]

lemma ledgerCount_of_some (L : Ledger) (x y : Label)
    (inner : List (Label × Int)) (h : alookup L x = some inner) :
    ledgerCount L x y = innerCount inner y := by
  unfold ledgerCount innerCount
  rw [h]

lemma bumpAt_count (L : Ledger) (l1 l2 k1 k2 : Nat) :
    ledgerCount (bumpAt L l1 l2) k1 k2 =
      ledgerCount L k1 k2 + (if l1 = k1 ∧ l2 = k2 then 1 else 0) := by
  cases h0 : alookup L l1 with
  | none =>
    simp only [bumpAt, h0]
    by_cases hk1 : l1 = k1
    · subst hk1
      rw [ledgerCount_aset_self, ledgerCount_of_none L l1 k2 h0]
      by_cases hk2 : l2 = k2
      · subst hk2
        simp [innerCount, alookup]
      · simp [innerCount, alookup, hk2]
    · rw [ledgerCount_aset_ne L l1 k1 _ _ (fun h => hk1 h.symm)]
      rw [if_neg (fun hc => hk1 hc.1)]
      omega
  | some inner =>
    cases h0' : alookup inner l2 with
    | none =>
      simp only [bumpAt, h0, h0']
      by_cases hk1 : l1 = k1
      · subst hk1
        rw [ledgerCount_aset_self, ledgerCount_of_some L l1 k2 inner h0]
        by_cases hk2 : l2 = k2
        · subst hk2
          rw [innerCount_aset_self]
          have : innerCount inner l2 = 0 := by
            unfold innerCount
            rw [h0']
          rw [this, if_pos ⟨rfl, rfl⟩]
          omega
        · rw [innerCount_aset_ne inner l2 k2 _ (fun h => hk2 h.symm)]
          rw [if_neg (fun hc => hk2 hc.2)]
          omega
      · rw [ledgerCount_aset_ne L l1 k1 _ _ (fun h => hk1 h.symm)]
        rw [if_neg (fun hc => hk1 hc.1)]
        omega
    | some c =>
      simp only [bumpAt, h0, h0']
      by_cases hk1 : l1 = k1
      · subst hk1
        rw [ledgerCount_aset_self, ledgerCount_of_some L l1 k2 inner h0]
        by_cases hk2 : l2 = k2
        · subst hk2
          rw [innerCount_aset_self]
          have : innerCount inner l2 = c := by
            unfold innerCount
            rw [h0']
          rw [this, if_pos ⟨rfl, rfl⟩]
        · rw [innerCount_aset_ne inner l2 k2 _ (fun h => hk2 h.symm)]
          rw [if_neg (fun hc => hk2 hc.2)]
          omega
      · rw [ledgerCount_aset_ne L l1 k1 _ _ (fun h => hk1 h.symm)]
        rw [if_neg (fun hc => hk1 hc.1)]
        omega

lemma bumpPair_count (L : Ledger) (x y k1 k2 : Nat) :
    ledgerCount (bumpPair L x y) k1 k2 =
      ledgerCount L k1 k2 +
        (if x ≠ y ∧ (if x > y then ((y, x) : Nat × Nat) else (x, y)) = (k1, k2)
          then 1 else 0) := by
  by_cases hxy : x = y
  · subst hxy
    simp [bumpPair]
  · by_cases hgt : x > y
    · rw [show bumpPair L x y = bumpAt L y x by
        unfold bumpPair
        rw [if_pos hxy, if_pos hgt]]
      rw [bumpAt_count, if_pos hgt]
      simp only [Prod.mk.injEq]
      split_ifs <;> omega
    · rw [show bumpPair L x y = bumpAt L x y by
        unfold bumpPair
        rw [if_pos hxy, if_neg hgt]]
      rw [bumpAt_count, if_neg hgt]
      simp only [Prod.mk.injEq]
      split_ifs <;> omega

lemma foldl_bump_count (x : Nat) :
    ∀ (rest : List Nat) (L : Ledger) (k1 k2 : Nat),
      ledgerCount (rest.foldl (fun acc y => bumpPair acc x y) L) k1 k2 =
        ledgerCount L k1 k2 + (countCanonFrom k1 k2 x rest : Int) := by
  intro rest
  induction rest with
  | nil => intro L k1 k2; simp [countCanonFrom]
  | cons y rest ih =>
    intro L k1 k2
    have hstep : (y :: rest).foldl (fun acc z => bumpPair acc x z) L =
        rest.foldl (fun acc z => bumpPair acc x z) (bumpPair L x y) := rfl
    rw [hstep, ih (bumpPair L x y) k1 k2, bumpPair_count]
    simp only [countCanonFrom]
    by_cases hc : x ≠ y ∧
        (if x > y then ((y, x) : Nat × Nat) else (x, y)) = (k1, k2)
    · simp only [if_pos hc]
      push_cast
      omega
    · simp only [if_neg hc]
      push_cast
      omega

lemma increase_count :
    ∀ (l : List Nat) (L : Ledger) (k1 k2 : Nat),
      ledgerCount (increasePairwiseConfidenceCount l L) k1 k2 =
        ledgerCount L k1 k2 + (countCanon k1 k2 l : Int) := by
  intro l
  induction l with
  | nil => intro L k1 k2; simp [increasePairwiseConfidenceCount, countCanon]
  | cons x rest ih =>
    intro L k1 k2
    have hstep : increasePairwiseConfidenceCount (x :: rest) L =
        increasePairwiseConfidenceCount rest
          (rest.foldl (fun acc y => bumpPair acc x y) L) := rfl
    rw [hstep, ih, foldl_bump_count]
    simp only [countCanon]
    push_cast
    omega

lemma canonCond_iff (x y k1 k2 : Nat) (hlt : k1 < k2) :
    (x ≠ y ∧ (if x > y then ((y, x) : Nat × Nat) else (x, y)) = (k1, k2)) ↔
      ((x = k1 ∧ y = k2) ∨ (x = k2 ∧ y = k1)) := by
  by_cases hgt : x > y
  · rw [if_pos hgt]
    simp only [Prod.mk.injEq]
    omega
  · rw [if_neg hgt]
    simp only [Prod.mk.injEq]
    omega

lemma canonCond_false (x y k1 k2 : Nat) (hge : k2 ≤ k1) :
    ¬(x ≠ y ∧ (if x > y then ((y, x) : Nat × Nat) else (x, y)) = (k1, k2)) := by
  by_cases hgt : x > y
  · rw [if_pos hgt]
    simp only [Prod.mk.injEq]
    omega
  · rw [if_neg hgt]
    simp only [Prod.mk.injEq]
    omega

lemma countOcc_zero (a : Nat) : ∀ l : List Nat, a ∉ l → countOcc a l = 0 := by
  intro l
  induction l with
  | nil => intro _; rfl
  | cons x rest ih =>
    intro h
    have hx : ¬x = a := fun he => h (List.mem_cons.mpr (Or.inl he.symm))
    simp only [countOcc]
    rw [if_neg hx, ih (fun hm => h (List.mem_cons_of_mem x hm))]

lemma countOcc_one (a : Nat) :
    ∀ l : List Nat, l.Nodup → a ∈ l → countOcc a l = 1 := by
  intro l
  induction l with
  | nil => intro _ h; simp at h
  | cons x rest ih =>
    intro hnd hmem
    obtain ⟨hx, hnd2⟩ := List.nodup_cons.mp hnd
    by_cases hxa : x = a
    · simp only [countOcc]
      rw [if_pos hxa, countOcc_zero a rest (fun hm => hx (hxa.symm ▸ hm))]
    · simp only [countOcc]
      rw [if_neg hxa]
      have hmem2 : a ∈ rest := by
        rcases List.mem_cons.mp hmem with h | h
        · exact absurd h.symm hxa
        · exact h
      rw [ih hnd2 hmem2]

lemma countCanonFrom_eval {k1 k2 : Nat} (hlt : k1 < k2) (x : Nat) :
    ∀ rest : List Nat,
      countCanonFrom k1 k2 x rest =
        if x = k1 then countOcc k2 rest
        else if x = k2 then countOcc k1 rest else 0 := by
  intro rest
  induction rest with
  | nil =>
    simp only [countCanonFrom, countOcc]
    split_ifs <;> rfl
  | cons y rest ih =>
    simp only [countCanonFrom]
    rw [ih]
    have hne12 : ¬k1 = k2 := by omega
    have hne21 : ¬k2 = k1 := by omega
    simp only [canonCond_iff x y k1 k2 hlt]
    by_cases h1 : x = k1 <;> by_cases h2 : x = k2 <;>
      by_cases h3 : y = k1 <;> by_cases h4 : y = k2 <;>
      simp [countOcc, h1, h2, h3, h4, hne12, hne21]

lemma countCanon_zero_left {k1 k2 : Nat} (hlt : k1 < k2) :
    ∀ l : List Nat, k1 ∉ l → countCanon k1 k2 l = 0 := by
  intro l
  induction l with
  | nil => intro _; rfl
  | cons x rest ih =>
    intro h
    have hx : ¬x = k1 := fun he => h (List.mem_cons.mpr (Or.inl he.symm))
    have hr : k1 ∉ rest := fun hm => h (List.mem_cons_of_mem x hm)
    simp only [countCanon]
    rw [countCanonFrom_eval hlt, if_neg hx, ih hr]
    by_cases h2 : x = k2
    · rw [if_pos h2, countOcc_zero k1 rest hr]
    · rw [if_neg h2]

lemma countCanon_zero_right {k1 k2 : Nat} (hlt : k1 < k2) :
    ∀ l : List Nat, k2 ∉ l → countCanon k1 k2 l = 0 := by
  intro l
  induction l with
  | nil => intro _; rfl
  | cons x rest ih =>
    intro h
    have hx : ¬x = k2 := fun he => h (List.mem_cons.mpr (Or.inl he.symm))
    have hr : k2 ∉ rest := fun hm => h (List.mem_cons_of_mem x hm)
    simp only [countCanon]
    rw [countCanonFrom_eval hlt, ih hr]
    by_cases h1 : x = k1
    · rw [if_pos h1, countOcc_zero k2 rest hr]
    · rw [if_neg h1, if_neg hx]

lemma countCanon_one {k1 k2 : Nat} (hlt : k1 < k2) :
    ∀ l : List Nat, l.Nodup → k1 ∈ l → k2 ∈ l → countCanon k1 k2 l = 1 := by
  intro l
  induction l with
  | nil => intro _ h; simp at h
  | cons x rest ih =>
    intro hnd h1 h2
    obtain ⟨hx, hnd2⟩ := List.nodup_cons.mp hnd
    simp only [countCanon]
    rw [countCanonFrom_eval hlt]
    by_cases hx1 : x = k1
    · have h2r : k2 ∈ rest := by
        rcases List.mem_cons.mp h2 with h | h
        · exact absurd (h.trans hx1) (by omega)
        · exact h
      rw [if_pos hx1, countOcc_one k2 rest hnd2 h2r,
        countCanon_zero_left hlt rest (fun hm => hx (hx1.symm ▸ hm))]
    · by_cases hx2 : x = k2
      · have h1r : k1 ∈ rest := by
          rcases List.mem_cons.mp h1 with h | h
          · exact absurd (h.trans hx2) (by omega)
          · exact h
        rw [if_neg hx1, if_pos hx2, countOcc_one k1 rest hnd2 h1r,
          countCanon_zero_right hlt rest (fun hm => hx (hx2.symm ▸ hm))]
      · have h1r : k1 ∈ rest := by
          rcases List.mem_cons.mp h1 with h | h
          · exact absurd h.symm hx1
          · exact h
        have h2r : k2 ∈ rest := by
          rcases List.mem_cons.mp h2 with h | h
          · exact absurd h.symm hx2
          · exact h
        rw [if_neg hx1, if_neg hx2, ih hnd2 h1r h2r]

lemma countCanonFrom_zero_of_ge {k1 k2 : Nat} (hge : k2 ≤ k1) (x : Nat) :
    ∀ rest : List Nat, countCanonFrom k1 k2 x rest = 0 := by
  intro rest
  induction rest with
  | nil => rfl
  | cons y rest ih =>
    simp only [countCanonFrom]
    rw [if_neg (canonCond_false x y k1 k2 hge), ih]

lemma countCanon_zero_of_ge {k1 k2 : Nat} (hge : k2 ≤ k1) :
    ∀ l : List Nat, countCanon k1 k2 l = 0 := by
  intro l
  induction l with
  | nil => rfl
  | cons x rest ih =>
    simp only [countCanon]
    rw [countCanonFrom_zero_of_ge hge, ih]

lemma insertLabel_nodup (set : List Label) (l : Label) (hnd : set.Nodup) :
    (insertLabel set l).Nodup := by
  unfold insertLabel
  split
  · exact hnd
  · exact List.nodup_cons.mpr ⟨by assumption, hnd⟩

lemma increase_set_nodup (cfg : LabelTsdfConfig) (sid : SegId) (label : Label)
    (segSize : Nat) (cands : Candidates) (set : List Label)
    (hnd : set.Nodup) :
    ((increaseLabelCountForSegment cfg sid label segSize cands set).2).Nodup := by
  unfold increaseLabelCountForSegment
  cases alookup cands label with
  | none => exact hnd
  | some inner =>
    dsimp only
    cases alookup inner sid with
    | none => exact hnd
    | some c =>
      dsimp only
      split
      · unfold checkForSegmentLabelMergeCandidate
        split
        · exact insertLabel_nodup set label hnd
        · exact hnd
      · exact hnd

lemma scan_set_nodup (cfg : LabelTsdfConfig) (sid : SegId) (segSize : Nat) :
    ∀ (obs : List Label) (cands : Candidates) (set : List Label) (ex : Bool),
      set.Nodup →
      ((scanSegmentPoints cfg sid segSize obs cands set ex).2.1).Nodup := by
  intro obs
  induction obs with
  | nil => intro cands set ex hnd; exact hnd
  | cons v rest ih =>
    intro cands set ex hnd
    unfold scanSegmentPoints
    by_cases hv : v ≠ 0
    · rw [if_pos hv]
      exact ih _ _ true (increase_set_nodup cfg sid v segSize cands set hnd)
    · rw [if_neg hv]
      exact ih cands set ex hnd


/-- C8: after `computeSegmentLabelCandidates` with pairwise merging enabled,
every unordered pair of distinct labels of the segment's merge-candidate set
has its ledger count under the canonical key (smaller id first) incremented by
exactly `1`, while the reversed (larger-id-first) key is untouched. -/
theorem C8_pair_counted_once (cfg : LabelTsdfConfig) (sid : SegId)
    (obs : List Label) (cands : Candidates) (ledger : Ledger) (highest : Nat)
    (out : Candidates × Ledger × Nat)
    (hen : cfg.enable_pairwise_confidence_merging = true)
    (hout : computeSegmentLabelCandidates cfg sid obs cands ledger highest =
      some out)
    (a b : Nat)
    (ha : a ∈ (scanSegmentPoints cfg sid obs.length obs cands [] false).2.1)
    (hb : b ∈ (scanSegmentPoints cfg sid obs.length obs cands [] false).2.1)
    (hab : a ≠ b) :
    ledgerCount out.2.1 (min a b) (max a b) =
        ledgerCount ledger (min a b) (max a b) + 1 ∧
      ledgerCount out.2.1 (max a b) (min a b) =
        ledgerCount ledger (max a b) (min a b) := by
  have hkey : out.2.1 =
      increasePairwiseConfidenceCount
        ((scanSegmentPoints cfg sid obs.length obs cands [] false).2.1)
        ledger := by
    unfold computeSegmentLabelCandidates at hout
    simp only [] at hout
    rw [if_pos hen] at hout
    split at hout
    · have h := Option.some.inj hout
      subst h
      rfl
    · cases hf : getFreshLabel highest with
      | none => rw [hf] at hout; exact absurd hout (by simp)
      | some p =>
        obtain ⟨fresh, h2⟩ := p
        rw [hf] at hout
        have h := Option.some.inj hout
        subst h
        rfl
  have hlt : min a b < max a b := by omega
  have hnd : ((scanSegmentPoints cfg sid obs.length obs cands []
      false).2.1).Nodup :=
    scan_set_nodup cfg sid obs.length obs cands [] false List.nodup_nil
  have hmin : min a b ∈
      (scanSegmentPoints cfg sid obs.length obs cands [] false).2.1 := by
    rcases min_choice a b with h | h <;> rw [h]
    · exact ha
    · exact hb
  have hmax : max a b ∈
      (scanSegmentPoints cfg sid obs.length obs cands [] false).2.1 := by
    rcases max_choice a b with h | h <;> rw [h]
    · exact ha
    · exact hb
  rw [hkey]
  constructor
  · rw [increase_count, countCanon_one hlt _ hnd hmin hmax]
    omega
  · rw [increase_count, countCanon_zero_of_ge (Nat.le_of_lt hlt)]
    omega

/-- C8 witness: a four-point segment observing labels `7, 7, 8, 8`: both
labels join the candidate set, the pair gets ledger key `(7, 8)` with count
incremented from `0` to `1`, and key `(8, 7)` stays absent. -/
theorem C8_pair_counted_once_witness :
    ledgerCount ([(7, [(0, 2)]), (8, [(0, 2)])],
        ([(7, [(8, 1)])] : Ledger), 0).2.1 (min 7 8) (max 7 8) =
        ledgerCount ([] : Ledger) (min 7 8) (max 7 8) + 1 ∧
      ledgerCount ([(7, [(0, 2)]), (8, [(0, 2)])],
        ([(7, [(8, 1)])] : Ledger), 0).2.1 (max 7 8) (min 7 8) =
        ledgerCount ([] : Ledger) (max 7 8) (min 7 8) :=
  C8_pair_counted_once mergingConfig 0 [7, 7, 8, 8] [] [] 0
    ([(7, [(0, 2)]), (8, [(0, 2)])], [(7, [(8, 1)])], 0) rfl rfl
    7 8 (by decide) (by decide) (by decide)

lemma getNext_label_mem {cands : Candidates} {labelled : List SegId}
    {sid : SegId} {lab : Label}
    (hn : getNextSegmentLabelPair cands labelled = some (sid, lab)) :
    lab ∈ cands.map Prod.fst := by
  unfold getNextSegmentLabelPair at hn
  set best := (allEntries cands).foldl (bestStep labelled) (0, 0, 0) with hbest
  by_cases hz : best.2.2 = 0
  · rw [if_pos hz] at hn
    exact absurd hn (by simp)
  · rw [if_neg hz] at hn
    rcases bestScan_mem labelled (allEntries cands) (0, 0, 0) with h | h
    · exact absurd (by rw [← hbest] at h; rw [h]) hz
    · rw [← hbest] at h
      have hlab : best.1 = lab := by
        have hh := hn
        simp only [Option.some.injEq, Prod.mk.injEq] at hh
        exact hh.2
      obtain ⟨e, he, hin⟩ := List.mem_flatMap.mp h.1
      obtain ⟨p, _, heq⟩ := List.mem_map.mp hin
      have hle : lab = e.1 := by rw [← hlab, ← heq]
      rw [hle]
      exact List.mem_map.mpr ⟨e, he, rfl⟩

lemma eraseLabel_length_lt {cands : Candidates} {lab : Label}
    (h : lab ∈ cands.map Prod.fst) :
    (eraseLabel cands lab).length < cands.length := by
  unfold eraseLabel
  obtain ⟨e, he, heq⟩ := List.mem_map.mp h
  exact List.length_filter_lt_length_iff_exists.mpr ⟨e, he, by simp [heq]⟩

/-- With `cands.length` rounds of fuel, the modelled `while` loop of
`decideLabelPointClouds` always reaches the `false` return of
`getNextSegmentLabelPair` — the fuel never cuts the source loop short, since
every round erases a label that is present in the table. -/
lemma greedyLoop_exits :
    ∀ (fuel : Nat) (cands : Candidates) (labelled : List SegId)
      (segs : Segments), cands.length ≤ fuel →
      getNextSegmentLabelPair (greedyLoop fuel cands labelled segs).2.2
        (greedyLoop fuel cands labelled segs).2.1 = none := by
  intro fuel
  induction fuel with
  | zero =>
    intro cands labelled segs hle
    have hnil : cands = [] := List.length_eq_zero.mp (Nat.le_zero.mp hle)
    subst hnil
    rfl
  | succ n ih =>
    intro cands labelled segs hle
    unfold greedyLoop
    cases hn : getNextSegmentLabelPair cands labelled with
    | none => exact hn
    | some p =>
      obtain ⟨sid, lab⟩ := p
      exact ih (eraseLabel cands lab) (sid :: labelled)
        (assignLabel segs sid lab)
        (Nat.le_of_lt_succ (Nat.lt_of_lt_of_le
          (eraseLabel_length_lt (getNext_label_mem hn)) hle))

lemma applyOp_countMap (cfg : LabelTsdfConfig) (s : IntState) (op : Op) :
    (applyOp cfg s op).labelsCountMap = s.labelsCountMap := by
  cases op with
  | updVoxel bi vi lab conf =>
    unfold applyOp
    dsimp only
    cases alookup s.layer bi with
    | none => rfl
    | some voxels =>
      dsimp only
      cases getNth voxels vi with
      | none => rfl
      | some v => rfl
  | swap o n => rfl
  | merge => rfl
  | foldBack => rfl
  | batch segs segObs segsToInt =>
    unfold applyOp
    dsimp only
    cases computeAllSegments cfg segObs [] s.ledger s.highest with
    | none => rfl
    | some t =>
      dsimp only
      obtain ⟨cands, ledger2, highest2⟩ := t
      cases decideLabelPointClouds segsToInt cands segs highest2 with
      | none => rfl
      | some r => rfl

/-- C10: starting from a freshly constructed integrator, after any sequence
of voxel-update, swap, merge, fold-back and batch-integration operations,
`getLabelsList` returns the empty list: `labels_count_map_` is never written
(its only writer, `changeLabelCount`, is commented out), so no label ever has
a positive recorded count. -/
theorem C10_labels_list_always_empty (cfg : LabelTsdfConfig) (highest : Nat)
    (ops : List Op) :
    getLabelsList (applyOps cfg (initState highest) ops) = [] := by
  have hmap : ∀ (s : IntState) (ops2 : List Op),
      (applyOps cfg s ops2).labelsCountMap = s.labelsCountMap := by
    intro s ops2
    induction ops2 generalizing s with
    | nil => rfl
    | cons op rest ih =>
      have hstep : applyOps cfg s (op :: rest) =
          applyOps cfg (applyOp cfg s op) rest := rfl
      rw [hstep, ih (applyOp cfg s op), applyOp_countMap]
  unfold getLabelsList
  rw [hmap]
  rfl

end LabelTsdf
